import Mathlib

/-!
A shallow embedding of the build/output reconciliation core of
`src/asmtodsk.py` (TatungBytes Toolkit): the artifact reconciler
(`_remove_com_variants`, `_normalise_to_single_uppercase_com`), the
process runner (`FileLogger.stream_proc`) and the build orchestrator
(`_build_thread`).

The filesystem is modelled as a set of existing directories plus an
association list from file paths to modification times (POSIX-style
case-sensitive path equality, so case-variant names coexist).  Python
`str.lower()` on ASCII names is modelled by mapping `Char.toLower`
over the name's character list.  `Path.replace`/`shutil.move` into a
directory that does not exist raises in Python; the reconciler is
therefore embedded in `Except`, with the error carrying a message.
-/

namespace AsmToDsk

/-- A file path: a containing directory and a file name.
Equality is structural (case-sensitive), as on a POSIX filesystem. -/
structure FPath where
  dir : String
  name : String
deriving DecidableEq, Repr

/-- Render a path the way Python `str(Path)` does, for messages. -/
def FPath.render (p : FPath) : String := p.dir ++ "/" ++ p.name

/-- Filesystem state: the set of existing directories and the existing
files, each with its modification time (`st_mtime`). -/
structure FS where
  dirs : List String
  files : List (FPath × Nat)
deriving DecidableEq, Repr

/-- First-match lookup of a file's mtime in an association list. -/
def lookupL : List (FPath × Nat) → FPath → Option Nat
  | [], _ => none
  | (q, t) :: rest, p => if q = p then some t else lookupL rest p

/-- Look a file up in the filesystem. -/
def FS.lookup (fs : FS) (p : FPath) : Option Nat := lookupL fs.files p

/-- `p.unlink()`: remove the file at `p`. -/
def FS.unlink (fs : FS) (p : FPath) : FS :=
  { fs with files := fs.files.filter (fun q => !(decide (q.1 = p))) }

/-- `src.replace(dst)` / `shutil.move`: relocate the file at `src` to
`dst`, overwriting `dst` and keeping the file's mtime. -/
def FS.move (fs : FS) (src dst : FPath) : FS :=
  match lookupL fs.files src with
  | none => fs
  | some t =>
      { fs with
        files := (dst, t) ::
          (fs.files.filter (fun q => !(decide (q.1 = src)))).filter
            (fun q => !(decide (q.1 = dst))) }

/-- `d.mkdir(parents=True, exist_ok=True)` (flat-path model). -/
def FS.mkdir (fs : FS) (d : String) : FS :=
  if d ∈ fs.dirs then fs else { fs with dirs := d :: fs.dirs }

/-- Python `s.lower()` on an ASCII name, as a character list. -/
def lowerName (s : String) : List Char := s.data.map Char.toLower

/-- `p.name.lower() == base_stem.lower() + ".com"`: the case-insensitive
candidate test used by both reconciler functions. -/
def isComVariant (base : String) (p : FPath) : Bool :=
  decide (lowerName p.name = lowerName base ++ ".com".data)

/-- `_remove_com_variants(folder, base_stem)`: delete every file in
`folder` whose name case-insensitively matches `base.com`; a missing
folder is ignored (`except FileNotFoundError: pass`). -/
def removeComVariants (fs : FS) (folder base : String) : FS :=
  if folder ∈ fs.dirs then
    { fs with
      files := fs.files.filter
        (fun q => !(decide (q.1.dir = folder) && isComVariant base q.1)) }
  else fs

/-- The files of one folder that case-insensitively match `base.com`
(the `folder.iterdir()` scan of `_normalise_to_single_uppercase_com`);
a folder that does not exist contributes nothing. -/
def dirMatches (fs : FS) (d base : String) : List FPath :=
  if d ∈ fs.dirs then
    (fs.files.filter
      (fun q => decide (q.1.dir = d) && isComVariant base q.1)).map (·.1)
  else []

/-- `for folder in {wd, asm_dir}`: the candidate list collected across
the two directories (the Python set collapses equal directories). -/
def comCandidates (fs : FS) (wd asmDir base : String) : List FPath :=
  if wd = asmDir then dirMatches fs wd base
  else dirMatches fs wd base ++ dirMatches fs asmDir base

/-- `wd / f"{base_stem}.COM"`: the canonical target path. -/
def desiredPath (wd base : String) : FPath := ⟨wd, base ++ ".COM"⟩

/-- The mtime a path reports (`p.stat().st_mtime`); candidates always
exist, so the default is never observed. -/
def mtime (fs : FS) (p : FPath) : Nat := (fs.lookup p).getD 0

/-- CPython `max(candidates, key=...)`: fold keeping the first element
whose key is strictly greater than the current best's. -/
def maxByMtime (fs : FS) : FPath → List FPath → FPath
  | best, [] => best
  | best, p :: ps =>
      maxByMtime fs (if mtime fs p > mtime fs best then p else best) ps

/-- The `keep` selection of `_normalise_to_single_uppercase_com`:
the canonical path itself if it is a candidate, otherwise the
most recently modified candidate, otherwise nothing. -/
def keepOf (fs : FS) (wd asmDir base : String) : Option FPath :=
  if desiredPath wd base ∈ comCandidates fs wd asmDir base then
    some (desiredPath wd base)
  else
    match comCandidates fs wd asmDir base with
    | [] => none
    | c :: cs => some (maxByMtime fs c cs)

/-- One iteration of the deletion loop: `if p.exists() and
p != desired: p.unlink()` (unlink failures are swallowed). -/
def delStep (desired : FPath) (acc : FS) (p : FPath) : FS :=
  if (acc.lookup p).isSome && !(decide (p = desired)) then acc.unlink p
  else acc

/-- The deletion loop: `for p in candidates: ...` over `delStep`. -/
def deleteLoop (fs : FS) (cands : List FPath) (desired : FPath) : FS :=
  cands.foldl (delStep desired) fs

/-- `_normalise_to_single_uppercase_com(wd, asm_dir, base_stem)`:
collect candidates across the two directories, keep the canonical
path if present (else the newest candidate), move it to the canonical
path, delete the rest, and return the canonical path.  Moving into a
working directory that does not exist raises (`Path.replace` and the
`shutil.move` fallback both fail), modelled as `Except.error`; the
error propagates before any deletion has happened. -/
def normaliseCom (fs : FS) (wd asmDir base : String) :
    Except String (FS × FPath) :=
  match keepOf fs wd asmDir base with
  | none =>
      Except.ok (deleteLoop fs (comCandidates fs wd asmDir base)
        (desiredPath wd base), desiredPath wd base)
  | some keep =>
      if keep = desiredPath wd base then
        Except.ok (deleteLoop fs (comCandidates fs wd asmDir base)
          (desiredPath wd base), desiredPath wd base)
      else if wd ∈ fs.dirs then
        Except.ok (deleteLoop (fs.move keep (desiredPath wd base))
          (comCandidates fs wd asmDir base) (desiredPath wd base),
          desiredPath wd base)
      else
        Except.error ("Failed to move " ++ keep.render ++ " to " ++
          (desiredPath wd base).render)

/-- Python `s.strip()`: drop leading and trailing whitespace
(list-based so that it evaluates in the kernel). -/
def stripStr (s : String) : String :=
  ⟨((s.data.dropWhile Char.isWhitespace).reverse.dropWhile
      Char.isWhitespace).reverse⟩

/-- Well-formed filesystem: file paths are distinct and every file's
containing directory exists. -/
@[reducible] def FS.WF (fs : FS) : Prop :=
  fs.files.Pairwise (fun a b => a.1 ≠ b.1) ∧
  ∀ q ∈ fs.files, q.1.dir ∈ fs.dirs

/-- A file that case-insensitively matches `base.com` and lies in one
of the two reconciled directories exists in `fs`. -/
@[reducible] def matchingIn (fs : FS) (wd asmDir base : String)
    (p : FPath) : Prop :=
  (fs.lookup p).isSome ∧ (p.dir = wd ∨ p.dir = asmDir) ∧
    isComVariant base p = true

/-- Whether a reconciliation completed without raising. -/
def reconcileOk (r : Except String (FS × FPath)) : Bool :=
  match r with
  | Except.ok _ => true
  | Except.error _ => false

/-! ### Concrete states used to exhibit the theorems on real inputs -/

/-- Two directories, a lowercase duplicate in `W` (mtime 3) and a
newer mixed-case duplicate in `S` (mtime 7). -/
def wfs : FS :=
  ⟨["W", "S"], [(⟨"W", "hello.com"⟩, 3), (⟨"S", "HeLLo.CoM"⟩, 7)]⟩

/-- The state `wfs` reaches after reconciliation: the newer file has
been moved to the canonical `W/HELLO.COM`, the other deleted. -/
def wfs' : FS := ⟨["W", "S"], [(⟨"W", "HELLO.COM"⟩, 7)]⟩

/-- State for the missing-working-directory counterexample: `W` does
not exist and the source directory `S` holds `hello.com`. -/
def c4fs : FS := ⟨["S"], [(⟨"S", "hello.com"⟩, 5)]⟩

/-! ### Process runner and build orchestrator -/

/-- Outcome of `subprocess.Popen` in `stream_proc`: either the
process could not be started at all (the caught exception's text), or
it ran to completion with an exit code and streamed output lines. -/
inductive SpawnResult where
  | failed (err : String)
  | ran (rc : Int) (outLines : List String)
deriving DecidableEq, Repr

/-- One external tool invocation: how the spawn goes, and how the
process mutates the filesystem while running. -/
structure ToolRun where
  spawn : SpawnResult
  effect : FS → FS

/-- One appended log record: the session header written by
`FileLogger.__init__`, a text record (`line` / `_write`), a
`$`-prefixed command record (`cmd`), or a streamed subprocess output
line. -/
inductive Event where
  | header
  | line (s : String)
  | cmd (args : List String)
  | out (s : String)
deriving DecidableEq, Repr

/-- The `(rc, full_output_text)` pair `FileLogger.stream_proc`
returns: exit code 1 plus a diagnostic when the process could not be
started, otherwise the process's own exit code and its joined
output.  It never raises. -/
def runTool : SpawnResult → Int × String
  | SpawnResult.failed e => (1, "Failed to start process: " ++ e ++ "\n")
  | SpawnResult.ran rc outLines => (rc, String.join outLines)

/-- The log records `stream_proc` appends: the `$` command record,
then either the start-failure diagnostic or the streamed output. -/
def toolEvents (args : List String) : SpawnResult → List Event
  | SpawnResult.failed e =>
      [Event.cmd args,
       Event.line ("Failed to start process: " ++ e ++ "\n")]
  | SpawnResult.ran _ outLines =>
      Event.cmd args :: outLines.map Event.out

/-- The filesystem effect of a tool invocation: none when the process
never started. -/
def applyEffect (t : ToolRun) (fs : FS) : FS :=
  match t.spawn with
  | SpawnResult.failed _ => fs
  | SpawnResult.ran _ _ => t.effect fs

/-- The UI/config inputs of one `_build_thread` run, with the two
external tools abstracted as `ToolRun`s. -/
structure BuildEnv where
  asmPath : FPath
  wd : String
  base : String
  asmStem : String
  z80asmVar : String
  appmakeVar : String
  fmtVar : String
  logDir : String
  asmRun : ToolRun
  pkgRun : ToolRun

/-- `self.var_z80asm.get().strip() or "z80asm.exe"`. -/
def effZ80asm (env : BuildEnv) : String :=
  if stripStr env.z80asmVar = "" then "z80asm.exe"
  else stripStr env.z80asmVar

/-- `self.var_appmake.get().strip() or "z88dk-appmake.exe"`. -/
def effAppmake (env : BuildEnv) : String :=
  if stripStr env.appmakeVar = "" then "z88dk-appmake.exe"
  else stripStr env.appmakeVar

/-- `self.var_cpmdisk_fmt.get().strip() or DEFAULT_FMT`. -/
def effFmt (env : BuildEnv) : String :=
  if stripStr env.fmtVar = "" then "einstein" else stripStr env.fmtVar

/-- `com = wd / f"{base}.COM"` from `_out_paths`. -/
def comPath (env : BuildEnv) : FPath := ⟨env.wd, env.base ++ ".COM"⟩

/-- `dsk = wd / f"{base}.dsk"` from `_out_paths`. -/
def dskPath (env : BuildEnv) : FPath := ⟨env.wd, env.base ++ ".dsk"⟩

/-- `obj = wd / f"{stem}.o"` from `_out_paths`. -/
def objPath (env : BuildEnv) : FPath := ⟨env.wd, env.asmStem ++ ".o"⟩

/-- `log = LOG_DIR / f"{base}_build.log"` rendered as text. -/
def logPath (env : BuildEnv) : String :=
  env.logDir ++ "/" ++ env.base ++ "_build.log"

/-- The assembler command line
`[z80asm, "-v", "-b", str(asm), "-o" + com.name]`. -/
def asmArgs (env : BuildEnv) : List String :=
  [effZ80asm env, "-v", "-b", env.asmPath.render,
    "-o" ++ (comPath env).name]

/-- The packager command line `[appmake, "+cpmdisk", "-f", fmt, "-b",
final_com.name, "-o", dsk.name]` (the reconciler always returns the
canonical path, so `final_com.name = com.name`). -/
def pkgArgs (env : BuildEnv) : List String :=
  [effAppmake env, "+cpmdisk", "-f", effFmt env, "-b",
    (comPath env).name, "-o", (dskPath env).name]

/-- Build outcome surfaced by the orchestrator: the status text plus,
on failure, the diagnostic handed to the error window. -/
inductive BuildOutcome where
  | sourceNotFound
  | failedAssembly (diag : String)
  | failedMissingArtifact
  | failedPackaging (diag : String)
  | succeeded (com dsk : FPath)
  | failedUnexpected (msg : String)
deriving DecidableEq, Repr

/-- `msg = output or f"{z80asm} failed with exit code {rc}.\nLog: {log}"`. -/
def asmDiag (env : BuildEnv) : String :=
  if (runTool env.asmRun.spawn).2 = "" then
    effZ80asm env ++ " failed with exit code " ++
      toString (runTool env.asmRun.spawn).1 ++ ".\nLog: " ++ logPath env
  else (runTool env.asmRun.spawn).2

/-- `msg = output or f"{appmake} failed with exit code {rc}.\nLog: {log}"`. -/
def pkgDiag (env : BuildEnv) : String :=
  if (runTool env.pkgRun.spawn).2 = "" then
    effAppmake env ++ " failed with exit code " ++
      toString (runTool env.pkgRun.spawn).1 ++ ".\nLog: " ++ logPath env
  else (runTool env.pkgRun.spawn).2

/-- The header plus project lines `_build_thread` logs up front. -/
def preEvents (env : BuildEnv) : List Event :=
  [Event.header,
   Event.line ("Project: " ++ env.asmPath.render),
   Event.line ("Working folder: " ++ env.wd),
   Event.line ("Derived base: " ++ env.base)]

/-- The stale-artifact purge before assembling: ensure the working
directory exists, remove `.com` variants from both directories, then
old object and disk files. -/
def purgedState (env : BuildEnv) (fs : FS) : FS :=
  ((if env.asmPath.dir ≠ env.wd then
      removeComVariants (removeComVariants (fs.mkdir env.wd) env.wd
        env.base) env.asmPath.dir env.base
    else
      removeComVariants (fs.mkdir env.wd) env.wd
        env.base).unlink (objPath env)).unlink (dskPath env)

/-- Filesystem state once the assembler has run. -/
def afterAsmState (env : BuildEnv) (fs : FS) : FS :=
  applyEffect env.asmRun (purgedState env fs)

/-- Log contents once the assembler has run. -/
def asmEvents (env : BuildEnv) : List Event :=
  preEvents env ++ toolEvents (asmArgs env) env.asmRun.spawn

/-- Log contents once the packager has run. -/
def pkgEvents (env : BuildEnv) : List Event :=
  asmEvents env ++ toolEvents (pkgArgs env) env.pkgRun.spawn

/-- Filesystem handed to the packager: the object file is removed
after stage-1 reconciliation, then the packager's effect applies. -/
def stage2Input (env : BuildEnv) (fs2 : FS) : FS :=
  applyEffect env.pkgRun (fs2.unlink (objPath env))

/-- `_build_thread`: validate the source path, log, purge stale
artifacts, run the assembler, reconcile, check the artifact, run the
packager, reconcile again, and report.  An exception escaping a stage
(in this model: only the reconciler's move) is caught by the outer
handler, which reopens the log (one more header) and records a FATAL
line. -/
def buildThread (env : BuildEnv) (fs : FS) :
    BuildOutcome × List Event × FS :=
  if (fs.lookup env.asmPath).isNone then
    (BuildOutcome.sourceNotFound, [], fs)
  else if (runTool env.asmRun.spawn).1 ≠ 0 then
    (BuildOutcome.failedAssembly (asmDiag env),
     asmEvents env ++ [Event.line ("ERROR: assembler failed rc=" ++
       toString (runTool env.asmRun.spawn).1)],
     afterAsmState env fs)
  else
    match normaliseCom (afterAsmState env fs) env.wd env.asmPath.dir
        env.base with
    | Except.error e =>
        (BuildOutcome.failedUnexpected e,
         asmEvents env ++ [Event.header, Event.line ("FATAL: " ++ e)],
         afterAsmState env fs)
    | Except.ok (fs2, finalCom) =>
        if (fs2.lookup finalCom).isNone then
          (BuildOutcome.failedMissingArtifact,
           asmEvents env ++ [Event.line "ERROR: COM not produced."], fs2)
        else if (runTool env.pkgRun.spawn).1 ≠ 0 then
          (BuildOutcome.failedPackaging (pkgDiag env),
           pkgEvents env ++ [Event.line ("ERROR: appmake failed rc=" ++
             toString (runTool env.pkgRun.spawn).1)],
           stage2Input env fs2)
        else
          match normaliseCom (stage2Input env fs2) env.wd
              env.asmPath.dir env.base with
          | Except.error e =>
              (BuildOutcome.failedUnexpected e,
               pkgEvents env ++ [Event.header,
                 Event.line ("FATAL: " ++ e)],
               stage2Input env fs2)
          | Except.ok (fs4, finalCom2) =>
              (BuildOutcome.succeeded finalCom2 (dskPath env),
               pkgEvents env ++ [Event.line "BUILD SUCCEEDED",
                 Event.line ("COM: " ++ finalCom2.render),
                 Event.line ("DSK: " ++ (dskPath env).render),
                 Event.line ("Log saved to: " ++ logPath env)], fs4)

/-! ### Concrete build inputs used to exhibit the theorems -/

/-- A tool that runs, exits 0, and touches nothing. -/
def idTool : ToolRun := ⟨SpawnResult.ran 0 [], fun fs => fs⟩

/-- A tool that exits 2 after printing one line. -/
def failTool : ToolRun := ⟨SpawnResult.ran 2 ["boom\n"], fun fs => fs⟩

/-- A tool that exits 0 and writes `W/HELLO.COM`. -/
def comTool : ToolRun :=
  ⟨SpawnResult.ran 0 [],
   fun fs => ⟨fs.dirs, (⟨"W", "HELLO.COM"⟩, 10) :: fs.files⟩⟩

/-- Source file present in `S`, working directory `W`. -/
def bfs6 : FS := ⟨["W", "S"], [(⟨"S", "HELLO.asm"⟩, 1)]⟩

/-- Empty filesystem for the missing-source scenario. -/
def bfs5 : FS := ⟨["W"], []⟩

/-- Build environment whose assembler fails with exit code 2. -/
def benv6 : BuildEnv :=
  ⟨⟨"S", "HELLO.asm"⟩, "W", "HELLO", "HELLO", "z80asm", "appmake",
    "einstein", "Logs", failTool, idTool⟩

/-- Build environment for the missing-source scenario. -/
def benv5 : BuildEnv :=
  ⟨⟨"S", "HELLO.asm"⟩, "W", "HELLO", "HELLO", "z80asm", "appmake",
    "einstein", "Logs", idTool, idTool⟩

/-- Build environment whose assembler writes the artifact and whose
packager exits 0 without producing any disk image. -/
def benv10 : BuildEnv :=
  ⟨⟨"S", "HELLO.asm"⟩, "W", "HELLO", "HELLO", "z80asm", "appmake",
    "einstein", "Logs", comTool, idTool⟩

/-- The filesystem reached after `benv10`'s assembler stage. -/
def bfs10mid : FS :=
  ⟨["W", "S"], [(⟨"W", "HELLO.COM"⟩, 10), (⟨"S", "HELLO.asm"⟩, 1)]⟩

/-! ### Lookup and mutation lemmas -/

theorem lookupL_eq_some_mem {l : List (FPath × Nat)} {p : FPath} {t : Nat}
    (h : lookupL l p = some t) : (p, t) ∈ l := by
  induction l with
  | nil => simp [lookupL] at h
  | cons q rest ih =>
    rw [lookupL] at h
    by_cases hq : q.1 = p
    · rw [if_pos hq] at h
      cases q
      simp_all
    · rw [if_neg hq] at h
      exact List.mem_cons_of_mem _ (ih h)

theorem lookupL_isSome {l : List (FPath × Nat)} {p : FPath} :
    (lookupL l p).isSome ↔ ∃ t, (p, t) ∈ l := by
  induction l with
  | nil => simp [lookupL]
  | cons q rest ih =>
    rw [lookupL]
    by_cases hq : q.1 = p
    · cases q
      subst hq
      simp
    · rw [if_neg hq, ih]
      cases q with
      | mk q1 q2 =>
        simp only [List.mem_cons, Prod.mk.injEq]
        constructor
        · rintro ⟨t, ht⟩
          exact ⟨t, Or.inr ht⟩
        · rintro ⟨t, h | ht⟩
          · exact absurd h.1.symm hq
          · exact ⟨t, ht⟩

theorem lookupL_filter_ne (l : List (FPath × Nat)) (d p : FPath) :
    lookupL (l.filter fun q => !(decide (q.1 = d))) p
      = if p = d then none else lookupL l p := by
  induction l with
  | nil => simp [lookupL]
  | cons q rest ih =>
    by_cases hq : q.1 = d
    · rw [List.filter_cons_of_neg (by simp [hq]), ih]
      by_cases hp : p = d
      · simp [hp]
      · have h1 : ¬ q.1 = p := fun h => hp (by rw [← h, hq])
        simp only [lookupL, if_neg hp, if_neg h1]
    · rw [List.filter_cons_of_pos (by simp [hq])]
      simp only [lookupL]
      by_cases hqp : q.1 = p
      · have hpd : ¬ p = d := fun h => hq (by rw [hqp, h])
        simp [hqp, hpd]
      · simp only [if_neg hqp]
        exact ih

theorem lookup_unlink (fs : FS) (d p : FPath) :
    (fs.unlink d).lookup p = if p = d then none else fs.lookup p :=
  lookupL_filter_ne fs.files d p

theorem dirs_unlink (fs : FS) (d : FPath) : (fs.unlink d).dirs = fs.dirs := rfl

theorem lookup_move (fs : FS) {src : FPath} (dst p : FPath) {t : Nat}
    (hsrc : fs.lookup src = some t) :
    (fs.move src dst).lookup p =
      if p = dst then some t
      else if p = src then none
      else fs.lookup p := by
  unfold FS.move
  rw [show lookupL fs.files src = some t from hsrc]
  show lookupL _ p = _
  rw [lookupL]
  by_cases hd : p = dst
  · rw [if_pos hd.symm, if_pos hd]
  · rw [if_neg (fun h => hd h.symm), if_neg hd, lookupL_filter_ne, if_neg hd,
      lookupL_filter_ne]
    rfl

theorem dirs_move (fs : FS) (src dst : FPath) :
    (fs.move src dst).dirs = fs.dirs := by
  unfold FS.move
  cases lookupL fs.files src <;> rfl

theorem delStep_lookup (fs : FS) (c desired p : FPath) :
    (delStep desired fs c).lookup p =
      if p = c ∧ p ≠ desired then none else fs.lookup p := by
  unfold delStep
  by_cases hcd : c = desired
  · rw [if_neg (by simp [hcd])]
    rw [if_neg (fun hx : p = c ∧ p ≠ desired => hx.2 (hx.1.trans hcd))]
  · by_cases hex : (fs.lookup c).isSome
    · rw [if_pos (by simp [hex, hcd]), lookup_unlink]
      by_cases hp : p = c
      · rw [if_pos hp, if_pos ⟨hp, fun hpd => hcd (hp.symm.trans hpd)⟩]
      · rw [if_neg hp, if_neg (fun hx => hp hx.1)]
    · rw [if_neg (by simp [hex])]
      by_cases hp : p = c
      · rw [if_pos ⟨hp, fun hpd => hcd (hp.symm.trans hpd)⟩, hp]
        exact Option.not_isSome_iff_eq_none.mp hex
      · rw [if_neg (fun hx => hp hx.1)]

theorem delStep_dirs (fs : FS) (c desired : FPath) :
    (delStep desired fs c).dirs = fs.dirs := by
  unfold delStep
  split <;> rfl

theorem deleteLoop_lookup (cands : List FPath) (fs : FS) (desired p : FPath) :
    (deleteLoop fs cands desired).lookup p =
      if p ∈ cands ∧ p ≠ desired then none else fs.lookup p := by
  induction cands generalizing fs with
  | nil => simp [deleteLoop]
  | cons c cs ih =>
    rw [deleteLoop, List.foldl_cons, ← deleteLoop, ih, delStep_lookup]
    by_cases hcs : p ∈ cs ∧ p ≠ desired
    · rw [if_pos hcs, if_pos ⟨List.mem_cons_of_mem _ hcs.1, hcs.2⟩]
    · rw [if_neg hcs]
      by_cases hpc : p = c ∧ p ≠ desired
      · rw [if_pos hpc,
          if_pos ⟨by rw [hpc.1]; exact List.mem_cons_self _ _, hpc.2⟩]
      · rw [if_neg hpc, if_neg (by
          intro hx
          rcases List.mem_cons.mp hx.1 with h | h
          · exact hpc ⟨h, hx.2⟩
          · exact hcs ⟨h, hx.2⟩)]

theorem deleteLoop_dirs (cands : List FPath) (fs : FS) (desired : FPath) :
    (deleteLoop fs cands desired).dirs = fs.dirs := by
  induction cands generalizing fs with
  | nil => rfl
  | cons c cs ih =>
    rw [deleteLoop, List.foldl_cons, ← deleteLoop, ih, delStep_dirs]

/-! ### Candidate collection and selection lemmas -/

theorem mem_dirMatches {fs : FS} {d base : String} {p : FPath} :
    p ∈ dirMatches fs d base ↔
      d ∈ fs.dirs ∧ p.dir = d ∧ (fs.lookup p).isSome ∧
        isComVariant base p = true := by
  unfold dirMatches
  by_cases hd : d ∈ fs.dirs
  · rw [if_pos hd]
    simp only [List.mem_map, List.mem_filter, Bool.and_eq_true,
      decide_eq_true_eq]
    constructor
    · rintro ⟨⟨q1, q2⟩, ⟨hmem, hdir, hvar⟩, rfl⟩
      exact ⟨hd, hdir, lookupL_isSome.mpr ⟨q2, hmem⟩, hvar⟩
    · rintro ⟨-, hdir, hsome, hvar⟩
      obtain ⟨t, ht⟩ := lookupL_isSome.mp hsome
      exact ⟨(p, t), ⟨ht, hdir, hvar⟩, rfl⟩
  · rw [if_neg hd]
    simp [hd]

theorem mem_comCandidates {fs : FS} {wd asmDir base : String} {p : FPath} :
    p ∈ comCandidates fs wd asmDir base ↔
      (p.dir = wd ∨ p.dir = asmDir) ∧ p.dir ∈ fs.dirs ∧
        (fs.lookup p).isSome ∧ isComVariant base p = true := by
  unfold comCandidates
  by_cases h : wd = asmDir
  · subst h
    rw [if_pos rfl, mem_dirMatches]
    constructor
    · rintro ⟨hd, hdir, hs, hv⟩
      exact ⟨Or.inl hdir, by rw [hdir]; exact hd, hs, hv⟩
    · rintro ⟨hor, hd, hs, hv⟩
      have hdir : p.dir = wd := by rcases hor with h | h <;> exact h
      exact ⟨by rw [← hdir]; exact hd, hdir, hs, hv⟩
  · rw [if_neg h]
    simp only [List.mem_append, mem_dirMatches]
    constructor
    · rintro (⟨hd, hdir, hs, hv⟩ | ⟨hd, hdir, hs, hv⟩)
      · exact ⟨Or.inl hdir, by rw [hdir]; exact hd, hs, hv⟩
      · exact ⟨Or.inr hdir, by rw [hdir]; exact hd, hs, hv⟩
    · rintro ⟨hor, hd, hs, hv⟩
      rcases hor with hdir | hdir
      · exact Or.inl ⟨by rw [← hdir]; exact hd, hdir, hs, hv⟩
      · exact Or.inr ⟨by rw [← hdir]; exact hd, hdir, hs, hv⟩

theorem maxByMtime_mem (fs : FS) (l : List FPath) (b : FPath) :
    maxByMtime fs b l ∈ b :: l := by
  induction l generalizing b with
  | nil => simp [maxByMtime]
  | cons p ps ih =>
    rw [maxByMtime]
    rcases List.mem_cons.mp (ih (if mtime fs p > mtime fs b then p else b))
      with h | h
    · rw [h]
      split
      · exact List.mem_cons_of_mem _ (List.mem_cons_self _ _)
      · exact List.mem_cons_self _ _
    · exact List.mem_cons_of_mem _ (List.mem_cons_of_mem _ h)

theorem maxByMtime_ge (fs : FS) (l : List FPath) (b : FPath) :
    ∀ q ∈ b :: l, mtime fs q ≤ mtime fs (maxByMtime fs b l) := by
  induction l generalizing b with
  | nil =>
    intro q hq
    rw [List.mem_singleton] at hq
    rw [hq, maxByMtime]
  | cons p ps ih =>
    intro q hq
    rw [maxByMtime]
    have hb : mtime fs b ≤
        mtime fs (if mtime fs p > mtime fs b then p else b) := by
      split
      · exact Nat.le_of_lt (by assumption)
      · exact Nat.le_refl _
    have hp : mtime fs p ≤
        mtime fs (if mtime fs p > mtime fs b then p else b) := by
      split
      · exact Nat.le_refl _
      · exact Nat.le_of_not_lt (by assumption)
    have hbest := ih (if mtime fs p > mtime fs b then p else b) _
      (List.mem_cons_self _ _)
    rcases List.mem_cons.mp hq with h | h
    · exact le_trans (by rw [h]; exact hb) hbest
    · rcases List.mem_cons.mp h with h2 | h2
      · exact le_trans (by rw [h2]; exact hp) hbest
      · exact ih _ q (List.mem_cons_of_mem _ h2)

theorem keepOf_mem {fs : FS} {wd asmDir base : String} {k : FPath}
    (h : keepOf fs wd asmDir base = some k) :
    k ∈ comCandidates fs wd asmDir base := by
  unfold keepOf at h
  split at h
  · injection h with h
    rw [← h]
    assumption
  · split at h
    · exact absurd h (by simp)
    · injection h with h
      rename_i heq
      rw [← h, heq]
      exact maxByMtime_mem fs _ _

theorem keepOf_eq_none {fs : FS} {wd asmDir base : String}
    (h : keepOf fs wd asmDir base = none) :
    comCandidates fs wd asmDir base = [] := by
  unfold keepOf at h
  split at h
  · exact absurd h (by simp)
  · split at h
    · assumption
    · exact absurd h (by simp)

theorem keepOf_desired {fs : FS} {wd asmDir base : String}
    (h : desiredPath wd base ∈ comCandidates fs wd asmDir base) :
    keepOf fs wd asmDir base = some (desiredPath wd base) := by
  unfold keepOf
  rw [if_pos h]

theorem keepOf_ge {fs : FS} {wd asmDir base : String} {k : FPath}
    (hk : keepOf fs wd asmDir base = some k)
    (hnd : desiredPath wd base ∉ comCandidates fs wd asmDir base) :
    ∀ q ∈ comCandidates fs wd asmDir base, mtime fs q ≤ mtime fs k := by
  unfold keepOf at hk
  rw [if_neg hnd] at hk
  split at hk
  · simp at hk
  · injection hk with hk
    rename_i c cs heq
    intro q hq
    rw [heq] at hq
    rw [← hk]
    exact maxByMtime_ge fs cs c q hq

/-- Master characterization of a successful reconciliation: the returned
path is the canonical one; directories are untouched; with no candidate
the filesystem is unchanged, otherwise some candidate `k` was selected,
now sits (alone) at the canonical path, and every other candidate is
gone while unrelated files are untouched. -/
theorem normalise_ok {fs : FS} {wd asmDir base : String} {fs' : FS}
    {ret : FPath}
    (hok : normaliseCom fs wd asmDir base = Except.ok (fs', ret)) :
    ret = desiredPath wd base ∧ fs'.dirs = fs.dirs ∧
      ((comCandidates fs wd asmDir base = [] ∧ fs' = fs) ∨
       ∃ k, keepOf fs wd asmDir base = some k ∧
         k ∈ comCandidates fs wd asmDir base ∧
         (k = desiredPath wd base ∨ wd ∈ fs.dirs) ∧
         ∀ p, fs'.lookup p =
           if p = desiredPath wd base then fs.lookup k
           else if p ∈ comCandidates fs wd asmDir base then none
           else fs.lookup p) := by
  unfold normaliseCom at hok
  split at hok
  · rename_i hkeep
    simp only [Except.ok.injEq, Prod.mk.injEq] at hok
    have hc := keepOf_eq_none hkeep
    refine ⟨hok.2.symm, ?_, Or.inl ⟨hc, ?_⟩⟩
    · rw [← hok.1, deleteLoop_dirs]
    · rw [← hok.1, hc]
      rfl
  · rename_i k hkeep
    have hkmem := keepOf_mem hkeep
    obtain ⟨t, ht⟩ := Option.isSome_iff_exists.mp
      (mem_comCandidates.mp hkmem).2.2.1
    split at hok
    · rename_i hkd
      simp only [Except.ok.injEq, Prod.mk.injEq] at hok
      refine ⟨hok.2.symm, by rw [← hok.1, deleteLoop_dirs],
        Or.inr ⟨k, hkeep, hkmem, Or.inl hkd, ?_⟩⟩
      intro p
      rw [← hok.1, deleteLoop_lookup]
      by_cases hp : p = desiredPath wd base
      · rw [if_neg (fun hx => hx.2 hp), if_pos hp, hp, ← hkd]
      · rw [if_neg hp]
        by_cases hpm : p ∈ comCandidates fs wd asmDir base
        · rw [if_pos ⟨hpm, hp⟩, if_pos hpm]
        · rw [if_neg (fun hx => hpm hx.1), if_neg hpm]
    · rename_i hkd
      split at hok
      · rename_i hwd
        simp only [Except.ok.injEq, Prod.mk.injEq] at hok
        refine ⟨hok.2.symm, by rw [← hok.1, deleteLoop_dirs, dirs_move],
          Or.inr ⟨k, hkeep, hkmem, Or.inr hwd, ?_⟩⟩
        intro p
        rw [← hok.1, deleteLoop_lookup, lookup_move fs (desiredPath wd base)
          p ht]
        by_cases hp : p = desiredPath wd base
        · rw [if_neg (fun hx => hx.2 hp), if_pos hp, if_pos hp, ht]
        · rw [if_neg hp, if_neg hp]
          by_cases hpm : p ∈ comCandidates fs wd asmDir base
          · rw [if_pos ⟨hpm, hp⟩, if_pos hpm]
          · rw [if_neg (fun hx => hpm hx.1), if_neg hpm,
              if_neg (fun hpk : p = k => hpm (by rw [hpk]; exact hkmem))]
      · exact absurd hok (by simp)

/-! ### String and filter helpers -/

theorem strData_append (a b : String) : (a ++ b).data = a.data ++ b.data := by
  cases a
  cases b
  rfl

theorem isComVariant_desired (wd base : String) :
    isComVariant base (desiredPath wd base) = true := by
  unfold isComVariant desiredPath lowerName
  simp only [strData_append, List.map_append, decide_eq_true_eq]
  rw [show ".COM".data.map Char.toLower = ".com".data from by decide]

theorem lookupL_filter_keep (l : List (FPath × Nat)) (f : FPath × Nat → Bool)
    (p : FPath) (hf : ∀ t, f (p, t) = true) :
    lookupL (l.filter f) p = lookupL l p := by
  induction l with
  | nil => rfl
  | cons q rest ih =>
    cases q with
    | mk q1 q2 =>
      by_cases hq : q1 = p
      · subst hq
        rw [List.filter_cons_of_pos (hf q2), lookupL, lookupL, if_pos rfl,
          if_pos rfl]
      · cases hfq : f (q1, q2) with
        | true =>
          rw [List.filter_cons_of_pos hfq, lookupL, lookupL, if_neg hq,
            if_neg hq, ih]
        | false =>
          rw [List.filter_cons_of_neg (by simp [hfq]), lookupL, if_neg hq, ih]

theorem lookupL_filter_drop (l : List (FPath × Nat)) (f : FPath × Nat → Bool)
    (p : FPath) (hf : ∀ t, f (p, t) = false) :
    lookupL (l.filter f) p = none := by
  induction l with
  | nil => rfl
  | cons q rest ih =>
    cases q with
    | mk q1 q2 =>
      by_cases hq : q1 = p
      · subst hq
        rw [List.filter_cons_of_neg (by simp [hf q2]), ih]
      · cases hfq : f (q1, q2) with
        | false => rw [List.filter_cons_of_neg (by simp [hfq]), ih]
        | true => rw [List.filter_cons_of_pos hfq, lookupL, if_neg hq, ih]

theorem lookup_removeComVariants (fs : FS) (folder base : String)
    (p : FPath) :
    (removeComVariants fs folder base).lookup p =
      if folder ∈ fs.dirs ∧ p.dir = folder ∧ isComVariant base p = true
      then none else fs.lookup p := by
  unfold removeComVariants
  by_cases hf : folder ∈ fs.dirs
  · rw [if_pos hf]
    by_cases hp : p.dir = folder ∧ isComVariant base p = true
    · rw [if_pos ⟨hf, hp.1, hp.2⟩]
      exact lookupL_filter_drop _ _ _ (fun t => by simp [hp.1, hp.2])
    · rw [if_neg (fun hx => hp ⟨hx.2.1, hx.2.2⟩)]
      refine lookupL_filter_keep _ _ _ (fun t => ?_)
      rcases not_and_or.mp hp with h | h
      · simp [h]
      · simp [Bool.not_eq_true _ ▸ h]
  · rw [if_neg hf, if_neg (fun hx => hf hx.1)]

theorem dirs_removeComVariants (fs : FS) (folder base : String) :
    (removeComVariants fs folder base).dirs = fs.dirs := by
  unfold removeComVariants
  split <;> rfl

theorem keepOf_nil {fs : FS} {wd asmDir base : String}
    (h : comCandidates fs wd asmDir base = []) :
    keepOf fs wd asmDir base = none := by
  unfold keepOf
  rw [h]
  simp

/-! ### The claims about the artifact reconciler -/

/-- **C1**: if at least one file case-insensitively named `B.com`
exists across the working directory `W` and source directory `S`, then
after a successful reconciliation exactly one such file exists across
the two directories, and it is at `W/B.COM` — the (already uppercase)
base identifier with the extension uppercased. -/
theorem C1_reconcile_single_canonical_artifact
    (fs : FS) (wd asmDir base : String) (fs' : FS) (ret : FPath)
    (hwf : fs.WF)
    (hup : base.data.map Char.toUpper = base.data)
    (hok : normaliseCom fs wd asmDir base = Except.ok (fs', ret))
    (hex : ∃ q, matchingIn fs wd asmDir base q) :
    (∀ p, matchingIn fs' wd asmDir base p ↔ p = desiredPath wd base) ∧
    ret = desiredPath wd base ∧
    (desiredPath wd base).dir = wd ∧
    (desiredPath wd base).name.data =
      base.data.map Char.toUpper ++ ".com".data.map Char.toUpper := by
  obtain ⟨hret, hdirs, hbranch⟩ := normalise_ok hok
  obtain ⟨q, hqs, hqd, hqv⟩ := hex
  obtain ⟨t, hqt⟩ := Option.isSome_iff_exists.mp hqs
  have hqdir : q.dir ∈ fs.dirs := hwf.2 _ (lookupL_eq_some_mem hqt)
  have hqc : q ∈ comCandidates fs wd asmDir base :=
    mem_comCandidates.mpr ⟨hqd, hqdir, hqs, hqv⟩
  rcases hbranch with ⟨hnil, -⟩ | ⟨k, hk, hkmem, -, hchar⟩
  · rw [hnil] at hqc
    exact absurd hqc (List.not_mem_nil _)
  · refine ⟨?_, hret, rfl, ?_⟩
    · intro p
      constructor
      · rintro ⟨hs, hd, hv⟩
        by_contra hp
        rw [hchar p, if_neg hp] at hs
        by_cases hpm : p ∈ comCandidates fs wd asmDir base
        · rw [if_pos hpm] at hs
          exact absurd hs (by simp)
        · rw [if_neg hpm] at hs
          obtain ⟨t2, ht2⟩ := Option.isSome_iff_exists.mp hs
          exact hpm (mem_comCandidates.mpr
            ⟨hd, hwf.2 _ (lookupL_eq_some_mem ht2), hs, hv⟩)
      · intro hp
        subst hp
        refine ⟨?_, Or.inl rfl, isComVariant_desired wd base⟩
        rw [hchar, if_pos rfl]
        exact (mem_comCandidates.mp hkmem).2.2.1
    · show (base ++ ".COM").data = _
      rw [strData_append, hup,
        show ".com".data.map Char.toUpper = ".COM".data from by decide]

/-- Witness for C1: on the concrete state `wfs` (candidates in both
directories), the canonical `W/HELLO.COM` is the unique surviving
match; the lowercase duplicate is gone. -/
theorem C1_witness :
    matchingIn wfs' "W" "S" "HELLO" (desiredPath "W" "HELLO") ∧
    ¬ matchingIn wfs' "W" "S" "HELLO" ⟨"W", "hello.com"⟩ := by
  have h := C1_reconcile_single_canonical_artifact wfs "W" "S" "HELLO" wfs'
    (desiredPath "W" "HELLO") (by decide) (by decide) (by rfl)
    ⟨⟨"W", "hello.com"⟩, by decide⟩
  refine ⟨(h.1 _).mpr rfl, fun hm => ?_⟩
  exact absurd ((h.1 _).mp hm) (by decide)

/-- **C2**: with at least one candidate, the kept file is the canonical
path when it is itself a candidate and otherwise a candidate of
maximal modification time; it ends up at the canonical path (moved,
not copied: it is no longer at its previous location), and every other
candidate is deleted. -/
theorem C2_reconcile_selection_policy
    (fs : FS) (wd asmDir base : String) (fs' : FS) (ret : FPath)
    (hok : normaliseCom fs wd asmDir base = Except.ok (fs', ret))
    (hne : comCandidates fs wd asmDir base ≠ []) :
    ∃ k, keepOf fs wd asmDir base = some k ∧
      k ∈ comCandidates fs wd asmDir base ∧
      (desiredPath wd base ∈ comCandidates fs wd asmDir base →
        k = desiredPath wd base) ∧
      (desiredPath wd base ∉ comCandidates fs wd asmDir base →
        ∀ q ∈ comCandidates fs wd asmDir base,
          mtime fs q ≤ mtime fs k) ∧
      fs'.lookup (desiredPath wd base) = fs.lookup k ∧
      (k ≠ desiredPath wd base → fs'.lookup k = none) ∧
      ∀ q ∈ comCandidates fs wd asmDir base, q ≠ desiredPath wd base →
        fs'.lookup q = none := by
  obtain ⟨hret, hdirs, hbranch⟩ := normalise_ok hok
  rcases hbranch with ⟨hnil, -⟩ | ⟨k, hk, hkmem, -, hchar⟩
  · exact absurd hnil hne
  · refine ⟨k, hk, hkmem, ?_, keepOf_ge hk, ?_, ?_, ?_⟩
    · intro hd
      exact Option.some.inj (hk.symm.trans (keepOf_desired hd))
    · rw [hchar, if_pos rfl]
    · intro hkd
      rw [hchar, if_neg hkd, if_pos hkmem]
    · intro q hq hqd
      rw [hchar, if_neg hqd, if_pos hq]

/-- Witness for C2: on `wfs` the newer `S/HeLLo.CoM` (mtime 7) is
selected, lands at the canonical path, and the older duplicate is
deleted. -/
theorem C2_witness :
    wfs'.lookup (desiredPath "W" "HELLO") = some 7 ∧
    wfs'.lookup ⟨"W", "hello.com"⟩ = none := by
  obtain ⟨k, hk, hkmem, hdes, hge, hmov, hgone, hdel⟩ :=
    C2_reconcile_selection_policy wfs "W" "S" "HELLO" wfs'
      (desiredPath "W" "HELLO") (by rfl) (by decide)
  have hkval : k = ⟨"S", "HeLLo.CoM"⟩ :=
    Option.some.inj ((show keepOf wfs "W" "S" "HELLO" =
      some ⟨"S", "HeLLo.CoM"⟩ from by decide).symm.trans hk).symm
  constructor
  · rw [hmov, hkval]
    decide
  · exact hdel ⟨"W", "hello.com"⟩ (by decide) (by decide)

/-- **C4, counterexample**: with the working directory missing and a
candidate present in the source directory, the reconciler raises
(`Path.replace`, then the `shutil.move` fallback, both fail) instead
of returning the canonical path. -/
theorem C4_counterexample_missing_workdir_raises :
    normaliseCom c4fs "W" "S" "HELLO" =
      Except.error "Failed to move S/hello.com to W/HELLO.COM" := by
  rfl

/-- **C4, amended**: the reconciler does not raise and returns the
canonical path `W/B.COM` whenever the working directory exists or
there is no candidate at all; a missing directory contributes zero
candidates during collection. -/
theorem C4_reconcile_total_when_workdir_exists
    (fs : FS) (wd asmDir base : String)
    (h : wd ∈ fs.dirs ∨ comCandidates fs wd asmDir base = []) :
    (∃ fs2, normaliseCom fs wd asmDir base =
        Except.ok (fs2, desiredPath wd base)) ∧
    ∀ d, d ∉ fs.dirs → dirMatches fs d base = [] := by
  constructor
  · cases hk : keepOf fs wd asmDir base with
    | none =>
      exact ⟨deleteLoop fs (comCandidates fs wd asmDir base)
        (desiredPath wd base), by simp only [normaliseCom, hk]⟩
    | some k =>
      by_cases hkd : k = desiredPath wd base
      · exact ⟨deleteLoop fs (comCandidates fs wd asmDir base)
          (desiredPath wd base), by simp only [normaliseCom, hk, if_pos hkd]⟩
      · have hwd : wd ∈ fs.dirs := by
          rcases h with hwd | hnil
          · exact hwd
          · rw [keepOf_nil hnil] at hk
            exact absurd hk (by simp)
        exact ⟨deleteLoop (fs.move k (desiredPath wd base))
          (comCandidates fs wd asmDir base) (desiredPath wd base),
          by simp only [normaliseCom, hk, if_neg hkd, if_pos hwd]⟩
  · intro d hd
    unfold dirMatches
    rw [if_neg hd]

/-- Witness for the amended C4: on `wfs` (working directory exists)
the reconciler completes without raising. -/
theorem C4_witness : reconcileOk (normaliseCom wfs "W" "S" "HELLO") = true := by
  obtain ⟨fs2, h⟩ := (C4_reconcile_total_when_workdir_exists wfs "W" "S"
    "HELLO" (Or.inl (by decide))).1
  rw [h]
  rfl

/-- **C9**: a successful reconciliation only moves or deletes files
matching the base identifier's artifact name inside the two given
directories — everything else keeps its exact lookup result, no
directory is created or removed, and any file present afterwards is
either an untouched old file or the canonical path now holding a
previous candidate's content; the delete-only purge variant likewise
only deletes matching files in its folder and creates nothing. -/
theorem C9_reconciler_frame
    (fs : FS) (wd asmDir base : String) (fs' : FS) (ret : FPath)
    (hok : normaliseCom fs wd asmDir base = Except.ok (fs', ret))
    (folder : String) :
    (∀ p, ¬((p.dir = wd ∨ p.dir = asmDir) ∧ isComVariant base p = true) →
        fs'.lookup p = fs.lookup p) ∧
    (∀ p t, fs'.lookup p = some t →
        fs.lookup p = some t ∨
          (p = desiredPath wd base ∧
            ∃ q ∈ comCandidates fs wd asmDir base,
              fs.lookup q = some t)) ∧
    fs'.dirs = fs.dirs ∧
    (∀ p, ¬(p.dir = folder ∧ isComVariant base p = true) →
        (removeComVariants fs folder base).lookup p = fs.lookup p) ∧
    (∀ p t, (removeComVariants fs folder base).lookup p = some t →
        fs.lookup p = some t) ∧
    (removeComVariants fs folder base).dirs = fs.dirs := by
  obtain ⟨hret, hdirs, hbranch⟩ := normalise_ok hok
  refine ⟨?_, ?_, hdirs, ?_, ?_, dirs_removeComVariants fs folder base⟩
  · intro p hnp
    rcases hbranch with ⟨-, hfs⟩ | ⟨k, hk, hkmem, -, hchar⟩
    · rw [hfs]
    · have hpd : ¬ p = desiredPath wd base := fun hp =>
        hnp ⟨Or.inl (by rw [hp]; exact rfl),
          by rw [hp]; exact isComVariant_desired wd base⟩
      have hpm : p ∉ comCandidates fs wd asmDir base := fun hm =>
        hnp ⟨(mem_comCandidates.mp hm).1, (mem_comCandidates.mp hm).2.2.2⟩
      rw [hchar, if_neg hpd, if_neg hpm]
  · intro p t hpt
    rcases hbranch with ⟨-, hfs⟩ | ⟨k, hk, hkmem, -, hchar⟩
    · rw [hfs] at hpt
      exact Or.inl hpt
    · rw [hchar] at hpt
      by_cases hp : p = desiredPath wd base
      · rw [if_pos hp] at hpt
        exact Or.inr ⟨hp, k, hkmem, hpt⟩
      · rw [if_neg hp] at hpt
        by_cases hpm : p ∈ comCandidates fs wd asmDir base
        · rw [if_pos hpm] at hpt
          exact absurd hpt (by simp)
        · rw [if_neg hpm] at hpt
          exact Or.inl hpt
  · intro p hnp
    rw [lookup_removeComVariants, if_neg (fun hx => hnp ⟨hx.2.1, hx.2.2⟩)]
  · intro p t hpt
    rw [lookup_removeComVariants] at hpt
    split at hpt
    · exact absurd hpt (by simp)
    · exact hpt

/-- Witness for C9: an unrelated file is untouched by both reconciler
entry points on the concrete state `wfs`. -/
theorem C9_witness :
    wfs'.lookup ⟨"S", "other.txt"⟩ = wfs.lookup ⟨"S", "other.txt"⟩ ∧
    (removeComVariants wfs "W" "HELLO").lookup ⟨"S", "HeLLo.CoM"⟩ =
      wfs.lookup ⟨"S", "HeLLo.CoM"⟩ := by
  have h := C9_reconciler_frame wfs "W" "S" "HELLO" wfs'
    (desiredPath "W" "HELLO") (by rfl) "W"
  exact ⟨h.1 ⟨"S", "other.txt"⟩ (by decide),
    h.2.2.2.1 ⟨"S", "HeLLo.CoM"⟩ (by decide)⟩

/-! ### Well-formedness preservation and idempotence -/

theorem unlink_WF {fs : FS} (hwf : fs.WF) (p : FPath) : (fs.unlink p).WF := by
  constructor
  · exact hwf.1.sublist (List.filter_sublist _)
  · intro q hq
    exact hwf.2 q (List.mem_of_mem_filter hq)

theorem delStep_WF {fs : FS} (hwf : fs.WF) (desired c : FPath) :
    (delStep desired fs c).WF := by
  unfold delStep
  split
  · exact unlink_WF hwf c
  · exact hwf

theorem deleteLoop_WF {fs : FS} (hwf : fs.WF) (cands : List FPath)
    (desired : FPath) : (deleteLoop fs cands desired).WF := by
  induction cands generalizing fs with
  | nil => exact hwf
  | cons c cs ih =>
    rw [deleteLoop, List.foldl_cons, ← deleteLoop]
    exact ih (delStep_WF hwf desired c)

theorem move_WF {fs : FS} (hwf : fs.WF) {src dst : FPath}
    (hdst : dst.dir ∈ fs.dirs) : (fs.move src dst).WF := by
  unfold FS.move
  split
  · exact hwf
  · constructor
    · refine List.pairwise_cons.mpr ⟨?_, ?_⟩
      · intro b hb
        have h2 := (List.mem_filter.mp hb).2
        simp only [Bool.not_eq_true', decide_eq_false_iff_not] at h2
        exact fun h => h2 h.symm
      · exact (hwf.1.sublist (List.filter_sublist _)).sublist
          (List.filter_sublist _)
    · intro q hq
      rcases List.mem_cons.mp hq with h | h
      · rw [h]
        exact hdst
      · exact hwf.2 q (List.mem_of_mem_filter (List.mem_of_mem_filter h))

theorem normalise_ok_WF {fs : FS} {wd asmDir base : String} {fs' : FS}
    {ret : FPath} (hwf : fs.WF)
    (hok : normaliseCom fs wd asmDir base = Except.ok (fs', ret)) :
    fs'.WF := by
  unfold normaliseCom at hok
  split at hok
  · simp only [Except.ok.injEq, Prod.mk.injEq] at hok
    rw [← hok.1]
    exact deleteLoop_WF hwf _ _
  · split at hok
    · simp only [Except.ok.injEq, Prod.mk.injEq] at hok
      rw [← hok.1]
      exact deleteLoop_WF hwf _ _
    · split at hok
      · rename_i hwd
        simp only [Except.ok.injEq, Prod.mk.injEq] at hok
        rw [← hok.1]
        exact deleteLoop_WF (move_WF hwf hwd) _ _
      · exact absurd hok (by simp)

theorem filter_eq_single {l : List (FPath × Nat)} {f : FPath × Nat → Bool}
    {d : FPath} {t : Nat}
    (hkd : l.Pairwise (fun a b => a.1 ≠ b.1))
    (hl : lookupL l d = some t)
    (hft : f (d, t) = true)
    (honly : ∀ e ∈ l, f e = true → e.1 = d) :
    l.filter f = [(d, t)] := by
  induction l with
  | nil => simp [lookupL] at hl
  | cons q rest ih =>
    cases q with
    | mk q1 q2 =>
      by_cases hq : q1 = d
      · subst hq
        rw [lookupL, if_pos rfl] at hl
        injection hl with hl
        subst hl
        rw [List.filter_cons_of_pos hft]
        have hrest : rest.filter f = [] := by
          rw [List.filter_eq_nil_iff]
          intro e he hfe
          have hne := (List.pairwise_cons.mp hkd).1 e he
          exact hne (honly e (List.mem_cons_of_mem _ he) hfe).symm
        rw [hrest]
      · rw [lookupL, if_neg hq] at hl
        have hfq : f (q1, q2) = false := by
          cases hfq : f (q1, q2)
          · rfl
          · exact absurd (honly (q1, q2) (List.mem_cons_self _ _) hfq) hq
        rw [List.filter_cons_of_neg (by simp [hfq])]
        exact ih (List.pairwise_cons.mp hkd).2 hl
          (fun e he hfe => honly e (List.mem_cons_of_mem _ he) hfe)

theorem deleteLoop_single_desired (fs : FS) (desired : FPath) :
    deleteLoop fs [desired] desired = fs := by
  rw [deleteLoop, List.foldl_cons, List.foldl_nil]
  unfold delStep
  rw [if_neg (by simp)]

/-- **C3**: with no external mutation in between, a second application
of the reconciler to the state produced by a successful first one
returns exactly the same filesystem state and the same path — the
second call performs no moves and no deletions. -/
theorem C3_reconcile_idempotent
    (fs : FS) (wd asmDir base : String) (fs' : FS) (ret : FPath)
    (hwf : fs.WF)
    (hok : normaliseCom fs wd asmDir base = Except.ok (fs', ret)) :
    normaliseCom fs' wd asmDir base = Except.ok (fs', ret) := by
  obtain ⟨hret, hdirs, hbranch⟩ := normalise_ok hok
  subst hret
  rcases hbranch with ⟨hnil, hfs⟩ | ⟨k, hk, hkmem, hwdor, hchar⟩
  · subst hfs
    exact hok
  · have wf' := normalise_ok_WF hwf hok
    obtain ⟨t0, ht0⟩ := Option.isSome_iff_exists.mp
      (mem_comCandidates.mp hkmem).2.2.1
    have hwd : wd ∈ fs.dirs := by
      rcases hwdor with hkd | hwd
      · have hmem2 := (mem_comCandidates.mp hkmem).2.1
        rw [hkd] at hmem2
        exact hmem2
      · exact hwd
    have hdesired2 : lookupL fs'.files (desiredPath wd base) = some t0 := by
      have hc := hchar (desiredPath wd base)
      rw [if_pos rfl, ht0] at hc
      exact hc
    have hkey : ∀ e ∈ fs'.files, (e.1.dir = wd ∨ e.1.dir = asmDir) →
        isComVariant base e.1 = true → e.1 = desiredPath wd base := by
      intro e he hdir hvar
      have hs : (fs'.lookup e.1).isSome := lookupL_isSome.mpr ⟨e.2, he⟩
      by_contra hne
      rw [hchar e.1, if_neg hne] at hs
      by_cases hm : e.1 ∈ comCandidates fs wd asmDir base
      · rw [if_pos hm] at hs
        exact absurd hs (by simp)
      · rw [if_neg hm] at hs
        obtain ⟨t2, ht2⟩ := Option.isSome_iff_exists.mp hs
        exact hm (mem_comCandidates.mpr
          ⟨hdir, hwf.2 (e.1, t2) (lookupL_eq_some_mem ht2), hs, hvar⟩)
    have hfilter := filter_eq_single
      (f := fun q => decide (q.1.dir = wd) && isComVariant base q.1)
      wf'.1 hdesired2 (by
        show (decide ((desiredPath wd base).dir = wd) &&
          isComVariant base (desiredPath wd base)) = true
        rw [isComVariant_desired]
        simp [desiredPath])
      (fun e he hfe => by
        simp only [Bool.and_eq_true, decide_eq_true_eq] at hfe
        exact hkey e he (Or.inl hfe.1) hfe.2)
    have hdm_wd : dirMatches fs' wd base = [desiredPath wd base] := by
      unfold dirMatches
      rw [if_pos (show wd ∈ fs'.dirs by rw [hdirs]; exact hwd), hfilter]
      rfl
    have hdm_s : wd ≠ asmDir → dirMatches fs' asmDir base = [] := by
      intro hne
      unfold dirMatches
      split
      · have hnil2 : fs'.files.filter
            (fun q => decide (q.1.dir = asmDir) && isComVariant base q.1)
              = [] := by
          refine List.filter_eq_nil_iff.mpr (fun e he hfe => ?_)
          simp only [Bool.and_eq_true, decide_eq_true_eq] at hfe
          have hed := hkey e he (Or.inr hfe.1) hfe.2
          rw [hed] at hfe
          exact hne hfe.1
        rw [hnil2]
        rfl
      · rfl
    have hcands2 : comCandidates fs' wd asmDir base =
        [desiredPath wd base] := by
      unfold comCandidates
      by_cases h : wd = asmDir
      · rw [if_pos h, hdm_wd]
      · rw [if_neg h, hdm_wd, hdm_s h, List.append_nil]
    have hkeep2 : keepOf fs' wd asmDir base =
        some (desiredPath wd base) :=
      keepOf_desired (by rw [hcands2]; exact List.mem_singleton_self _)
    simp only [normaliseCom, hkeep2, if_pos]
    rw [hcands2, deleteLoop_single_desired]

/-- Witness for C3: reconciling the already-reconciled state `wfs'`
returns it unchanged. -/
theorem C3_witness :
    normaliseCom wfs' "W" "S" "HELLO" =
      Except.ok (wfs', desiredPath "W" "HELLO") :=
  C3_reconcile_idempotent wfs "W" "S" "HELLO" wfs'
    (desiredPath "W" "HELLO") (by decide) (by rfl)

/-! ### Branch shapes of the build thread -/

theorem bt_source (env : BuildEnv) (fs : FS)
    (h0 : (fs.lookup env.asmPath).isNone) :
    buildThread env fs = (BuildOutcome.sourceNotFound, [], fs) := by
  unfold buildThread
  rw [if_pos h0]

theorem bt_asmFail (env : BuildEnv) (fs : FS)
    (h0 : ¬ (fs.lookup env.asmPath).isNone)
    (h1 : (runTool env.asmRun.spawn).1 ≠ 0) :
    buildThread env fs =
      (BuildOutcome.failedAssembly (asmDiag env),
       asmEvents env ++ [Event.line ("ERROR: assembler failed rc=" ++
         toString (runTool env.asmRun.spawn).1)],
       afterAsmState env fs) := by
  unfold buildThread
  rw [if_neg h0, if_pos h1]

theorem bt_reconcileErr (env : BuildEnv) (fs : FS) {e : String}
    (h0 : ¬ (fs.lookup env.asmPath).isNone)
    (h1 : (runTool env.asmRun.spawn).1 = 0)
    (h2 : normaliseCom (afterAsmState env fs) env.wd env.asmPath.dir
        env.base = Except.error e) :
    buildThread env fs =
      (BuildOutcome.failedUnexpected e,
       asmEvents env ++ [Event.header, Event.line ("FATAL: " ++ e)],
       afterAsmState env fs) := by
  unfold buildThread
  rw [if_neg h0, if_neg (fun hne => hne h1)]
  simp only [h2]

theorem bt_missing (env : BuildEnv) (fs : FS) {fs2 : FS}
    {finalCom : FPath}
    (h0 : ¬ (fs.lookup env.asmPath).isNone)
    (h1 : (runTool env.asmRun.spawn).1 = 0)
    (h2 : normaliseCom (afterAsmState env fs) env.wd env.asmPath.dir
        env.base = Except.ok (fs2, finalCom))
    (h3 : (fs2.lookup finalCom).isNone) :
    buildThread env fs =
      (BuildOutcome.failedMissingArtifact,
       asmEvents env ++ [Event.line "ERROR: COM not produced."],
       fs2) := by
  unfold buildThread
  rw [if_neg h0, if_neg (fun hne => hne h1)]
  simp only [h2]
  rw [if_pos h3]

theorem bt_pkgFail (env : BuildEnv) (fs : FS) {fs2 : FS}
    {finalCom : FPath}
    (h0 : ¬ (fs.lookup env.asmPath).isNone)
    (h1 : (runTool env.asmRun.spawn).1 = 0)
    (h2 : normaliseCom (afterAsmState env fs) env.wd env.asmPath.dir
        env.base = Except.ok (fs2, finalCom))
    (h3 : ¬ (fs2.lookup finalCom).isNone)
    (h4 : (runTool env.pkgRun.spawn).1 ≠ 0) :
    buildThread env fs =
      (BuildOutcome.failedPackaging (pkgDiag env),
       pkgEvents env ++ [Event.line ("ERROR: appmake failed rc=" ++
         toString (runTool env.pkgRun.spawn).1)],
       stage2Input env fs2) := by
  unfold buildThread
  rw [if_neg h0, if_neg (fun hne => hne h1)]
  simp only [h2]
  rw [if_neg h3, if_pos h4]

theorem bt_pkgErr (env : BuildEnv) (fs : FS) {fs2 : FS}
    {finalCom : FPath} {e : String}
    (h0 : ¬ (fs.lookup env.asmPath).isNone)
    (h1 : (runTool env.asmRun.spawn).1 = 0)
    (h2 : normaliseCom (afterAsmState env fs) env.wd env.asmPath.dir
        env.base = Except.ok (fs2, finalCom))
    (h3 : ¬ (fs2.lookup finalCom).isNone)
    (h4 : (runTool env.pkgRun.spawn).1 = 0)
    (h5 : normaliseCom (stage2Input env fs2) env.wd env.asmPath.dir
        env.base = Except.error e) :
    buildThread env fs =
      (BuildOutcome.failedUnexpected e,
       pkgEvents env ++ [Event.header, Event.line ("FATAL: " ++ e)],
       stage2Input env fs2) := by
  unfold buildThread
  rw [if_neg h0, if_neg (fun hne => hne h1)]
  simp only [h2]
  rw [if_neg h3, if_neg (fun hne => hne h4)]
  simp only [h5]

theorem bt_success (env : BuildEnv) (fs : FS) {fs2 : FS}
    {finalCom : FPath} {fs4 : FS} {finalCom2 : FPath}
    (h0 : ¬ (fs.lookup env.asmPath).isNone)
    (h1 : (runTool env.asmRun.spawn).1 = 0)
    (h2 : normaliseCom (afterAsmState env fs) env.wd env.asmPath.dir
        env.base = Except.ok (fs2, finalCom))
    (h3 : ¬ (fs2.lookup finalCom).isNone)
    (h4 : (runTool env.pkgRun.spawn).1 = 0)
    (h5 : normaliseCom (stage2Input env fs2) env.wd env.asmPath.dir
        env.base = Except.ok (fs4, finalCom2)) :
    buildThread env fs =
      (BuildOutcome.succeeded finalCom2 (dskPath env),
       pkgEvents env ++ [Event.line "BUILD SUCCEEDED",
         Event.line ("COM: " ++ finalCom2.render),
         Event.line ("DSK: " ++ (dskPath env).render),
         Event.line ("Log saved to: " ++ logPath env)], fs4) := by
  unfold buildThread
  rw [if_neg h0, if_neg (fun hne => hne h1)]
  simp only [h2]
  rw [if_neg h3, if_neg (fun hne => hne h4)]
  simp only [h5]

theorem cmd_mem_toolEvents (args : List String) (s : SpawnResult) :
    Event.cmd args ∈ toolEvents args s := by
  cases s <;> exact List.mem_cons_self _ _

theorem cmd_mem_asmEvents (env : BuildEnv) :
    Event.cmd (asmArgs env) ∈ asmEvents env :=
  List.mem_append.mpr (Or.inr (cmd_mem_toolEvents _ _))

theorem args_length_ne (env : BuildEnv) : pkgArgs env ≠ asmArgs env := by
  intro h
  have hl := congrArg List.length h
  simp [pkgArgs, asmArgs] at hl

theorem cmd_pkg_notin_toolEvents (env : BuildEnv) (s : SpawnResult) :
    Event.cmd (pkgArgs env) ∉ toolEvents (asmArgs env) s := by
  cases s with
  | failed e =>
    intro hm
    rcases List.mem_cons.mp hm with h | h
    · exact args_length_ne env (Event.cmd.inj h)
    · rcases List.mem_cons.mp h with h2 | h2
      · exact Event.noConfusion h2
      · exact absurd h2 (List.not_mem_nil _)
  | ran rc outLines =>
    intro hm
    rcases List.mem_cons.mp hm with h | h
    · exact args_length_ne env (Event.cmd.inj h)
    · obtain ⟨x, hx, hex⟩ := List.mem_map.mp h
      exact Event.noConfusion hex

theorem cmd_pkg_notin_asmEvents (env : BuildEnv) :
    Event.cmd (pkgArgs env) ∉ asmEvents env := by
  intro hm
  rcases List.mem_append.mp hm with h | h
  · simp [preEvents] at h
  · exact cmd_pkg_notin_toolEvents env _ h

theorem cmd_pkg_notin_fail_tail (env : BuildEnv) (tail : List Event)
    (htail : ∀ x ∈ tail, ∀ a, x ≠ Event.cmd a) :
    Event.cmd (pkgArgs env) ∉ asmEvents env ++ tail := by
  intro hm
  rcases List.mem_append.mp hm with h | h
  · exact cmd_pkg_notin_asmEvents env h
  · exact htail _ h (pkgArgs env) rfl

/-! ### The claims about the build orchestrator -/

/-- **C5**: when the source file does not exist the build thread
short-circuits with a failure outcome: no subprocess is invoked, no
purge or other filesystem mutation is performed, and nothing at all is
appended to the log (not even a header, so certainly no body lines
beyond one). -/
theorem C5_missing_source_short_circuits (env : BuildEnv) (fs : FS)
    (h : fs.lookup env.asmPath = none) :
    buildThread env fs = (BuildOutcome.sourceNotFound, [], fs) :=
  bt_source env fs (by rw [h]; rfl)

/-- Witness for C5 on a concrete empty filesystem. -/
theorem C5_witness :
    buildThread benv5 bfs5 = (BuildOutcome.sourceNotFound, [], bfs5) :=
  C5_missing_source_short_circuits benv5 bfs5 (by rfl)

/-- **C6**: the packager is never invoked when the assembler exits
non-zero (FailedAssembly) or when the canonical artifact is missing
after stage-1 reconciliation (FailedMissingArtifact): in both
outcomes the log holds the assembler's `$` command record and no `$`
record for the packager. -/
theorem C6_no_packager_after_failure (env : BuildEnv) (fs : FS)
    (h : (∃ d, (buildThread env fs).1 = BuildOutcome.failedAssembly d) ∨
      (buildThread env fs).1 = BuildOutcome.failedMissingArtifact) :
    Event.cmd (asmArgs env) ∈ (buildThread env fs).2.1 ∧
    Event.cmd (pkgArgs env) ∉ (buildThread env fs).2.1 := by
  by_cases h0 : (fs.lookup env.asmPath).isNone
  · rw [bt_source env fs h0] at h
    rcases h with ⟨d, hd⟩ | hd <;> exact absurd hd (by simp)
  · by_cases h1 : (runTool env.asmRun.spawn).1 ≠ 0
    · rw [bt_asmFail env fs h0 h1]
      refine ⟨List.mem_append.mpr (Or.inl (cmd_mem_asmEvents env)), ?_⟩
      refine cmd_pkg_notin_fail_tail env _ ?_
      intro x hx a heq
      rw [List.mem_singleton.mp hx] at heq
      exact Event.noConfusion heq
    · have h1x : (runTool env.asmRun.spawn).1 = 0 := not_ne_iff.mp h1
      cases h2 : normaliseCom (afterAsmState env fs) env.wd
          env.asmPath.dir env.base with
      | error e =>
        rw [bt_reconcileErr env fs h0 h1x h2] at h
        rcases h with ⟨d, hd⟩ | hd <;> exact absurd hd (by simp)
      | ok pr =>
        obtain ⟨fs2, finalCom⟩ := pr
        by_cases h3 : (fs2.lookup finalCom).isNone
        · rw [bt_missing env fs h0 h1x h2 h3]
          refine ⟨List.mem_append.mpr (Or.inl (cmd_mem_asmEvents env)), ?_⟩
          refine cmd_pkg_notin_fail_tail env _ ?_
          intro x hx a heq
          rw [List.mem_singleton.mp hx] at heq
          exact Event.noConfusion heq
        · by_cases h4 : (runTool env.pkgRun.spawn).1 ≠ 0
          · rw [bt_pkgFail env fs h0 h1x h2 h3 h4] at h
            rcases h with ⟨d, hd⟩ | hd <;> exact absurd hd (by simp)
          · have h4x : (runTool env.pkgRun.spawn).1 = 0 := not_ne_iff.mp h4
            cases h5 : normaliseCom (stage2Input env fs2) env.wd
                env.asmPath.dir env.base with
            | error e =>
              rw [bt_pkgErr env fs h0 h1x h2 h3 h4x h5] at h
              rcases h with ⟨d, hd⟩ | hd <;> exact absurd hd (by simp)
            | ok pr2 =>
              obtain ⟨fs4, finalCom2⟩ := pr2
              rw [bt_success env fs h0 h1x h2 h3 h4x h5] at h
              rcases h with ⟨d, hd⟩ | hd <;> exact absurd hd (by simp)

/-- Witness for C6: the assembler of `benv6` exits 2, so the build
fails as FailedAssembly, the log has the assembler's `$` record and
none for the packager. -/
theorem C6_witness :
    Event.cmd (asmArgs benv6) ∈ (buildThread benv6 bfs6).2.1 ∧
    Event.cmd (pkgArgs benv6) ∉ (buildThread benv6 bfs6).2.1 :=
  C6_no_packager_after_failure benv6 bfs6 (Or.inl ⟨"boom\n", by decide⟩)

/-- Classification of all reachable build outcomes, with the two
tool-failure diagnostics pinned to `asmDiag` / `pkgDiag`. -/
theorem buildThread_outcome_cases (env : BuildEnv) (fs : FS) :
    (buildThread env fs).1 = BuildOutcome.sourceNotFound ∨
    (buildThread env fs).1 = BuildOutcome.failedAssembly (asmDiag env) ∨
    (∃ e, (buildThread env fs).1 = BuildOutcome.failedUnexpected e) ∨
    (buildThread env fs).1 = BuildOutcome.failedMissingArtifact ∨
    (buildThread env fs).1 = BuildOutcome.failedPackaging (pkgDiag env) ∨
    ∃ c, (buildThread env fs).1 = BuildOutcome.succeeded c (dskPath env)
    := by
  by_cases h0 : (fs.lookup env.asmPath).isNone
  · exact Or.inl (by rw [bt_source env fs h0])
  · by_cases h1 : (runTool env.asmRun.spawn).1 ≠ 0
    · exact Or.inr (Or.inl (by rw [bt_asmFail env fs h0 h1]))
    · have h1x : (runTool env.asmRun.spawn).1 = 0 := not_ne_iff.mp h1
      cases h2 : normaliseCom (afterAsmState env fs) env.wd
          env.asmPath.dir env.base with
      | error e =>
        exact Or.inr (Or.inr (Or.inl
          ⟨e, by rw [bt_reconcileErr env fs h0 h1x h2]⟩))
      | ok pr =>
        obtain ⟨fs2, finalCom⟩ := pr
        by_cases h3 : (fs2.lookup finalCom).isNone
        · exact Or.inr (Or.inr (Or.inr (Or.inl
            (by rw [bt_missing env fs h0 h1x h2 h3]))))
        · by_cases h4 : (runTool env.pkgRun.spawn).1 ≠ 0
          · exact Or.inr (Or.inr (Or.inr (Or.inr (Or.inl
              (by rw [bt_pkgFail env fs h0 h1x h2 h3 h4])))))
          · have h4x : (runTool env.pkgRun.spawn).1 = 0 :=
              not_ne_iff.mp h4
            cases h5 : normaliseCom (stage2Input env fs2) env.wd
                env.asmPath.dir env.base with
            | error e =>
              exact Or.inr (Or.inr (Or.inl
                ⟨e, by rw [bt_pkgErr env fs h0 h1x h2 h3 h4x h5]⟩))
            | ok pr2 =>
              obtain ⟨fs4, finalCom2⟩ := pr2
              exact Or.inr (Or.inr (Or.inr (Or.inr (Or.inr
                ⟨finalCom2,
                  by rw [bt_success env fs h0 h1x h2 h3 h4x h5]⟩))))

/-- **C7**: a failing tool's captured output is surfaced verbatim as
the diagnostic; when the captured text is empty the diagnostic is the
synthesized message holding the tool name, the exit code and the log
location (that is what `asmDiag` / `pkgDiag` unfold to). -/
theorem C7_failure_diagnostic (env : BuildEnv) (fs : FS) (d : String) :
    ((buildThread env fs).1 = BuildOutcome.failedAssembly d →
      d = asmDiag env) ∧
    ((buildThread env fs).1 = BuildOutcome.failedPackaging d →
      d = pkgDiag env) ∧
    asmDiag env = (if (runTool env.asmRun.spawn).2 = "" then
      effZ80asm env ++ " failed with exit code " ++
        toString (runTool env.asmRun.spawn).1 ++ ".\nLog: " ++
        logPath env
      else (runTool env.asmRun.spawn).2) ∧
    pkgDiag env = (if (runTool env.pkgRun.spawn).2 = "" then
      effAppmake env ++ " failed with exit code " ++
        toString (runTool env.pkgRun.spawn).1 ++ ".\nLog: " ++
        logPath env
      else (runTool env.pkgRun.spawn).2) := by
  refine ⟨?_, ?_, rfl, rfl⟩
  · intro hd
    rcases buildThread_outcome_cases env fs with
      h | h | ⟨e, h⟩ | h | h | ⟨c, h⟩
    · exact absurd (hd.symm.trans h) (by simp)
    · exact BuildOutcome.failedAssembly.inj (hd.symm.trans h)
    · exact absurd (hd.symm.trans h) (by simp)
    · exact absurd (hd.symm.trans h) (by simp)
    · exact absurd (hd.symm.trans h) (by simp)
    · exact absurd (hd.symm.trans h) (by simp)
  · intro hd
    rcases buildThread_outcome_cases env fs with
      h | h | ⟨e, h⟩ | h | h | ⟨c, h⟩
    · exact absurd (hd.symm.trans h) (by simp)
    · exact absurd (hd.symm.trans h) (by simp)
    · exact absurd (hd.symm.trans h) (by simp)
    · exact absurd (hd.symm.trans h) (by simp)
    · exact BuildOutcome.failedPackaging.inj (hd.symm.trans h)
    · exact absurd (hd.symm.trans h) (by simp)

/-- Witness for C7: `benv6`'s assembler prints one line and exits 2;
the surfaced diagnostic is exactly that captured text. -/
theorem C7_witness :
    (buildThread benv6 bfs6).1 = BuildOutcome.failedAssembly "boom\n" ∧
    "boom\n" = asmDiag benv6 :=
  ⟨by decide, (C7_failure_diagnostic benv6 bfs6 "boom\n").1 (by decide)⟩

/-- **C8**: `stream_proc` never raises for a non-zero exit code — it
returns the process's own code for the caller to inspect — and when
the executable cannot be started it returns exit code 1 together with
a diagnostic string, having appended that diagnostic to the log. -/
theorem C8_stream_proc_contract (args : List String) :
    (∀ rc outLines, (runTool (SpawnResult.ran rc outLines)).1 = rc) ∧
    (∀ e, runTool (SpawnResult.failed e) =
        (1, "Failed to start process: " ++ e ++ "\n") ∧
      toolEvents args (SpawnResult.failed e) =
        [Event.cmd args,
         Event.line ("Failed to start process: " ++ e ++ "\n")]) :=
  ⟨fun _ _ => rfl, fun _ => ⟨rfl, rfl⟩⟩

/-- **C10**: when the assembler exits 0, the canonical artifact exists
after stage-1 reconciliation, and the packager exits 0, the build
reports success carrying `W/BASE.COM` and `W/BASE.dsk` — there is no
hypothesis about the disk image existing, because the orchestrator
never checks it. -/
theorem C10_success_without_dsk_check (env : BuildEnv) (fs : FS)
    (fs2 : FS) (finalCom : FPath) (fs4 : FS) (finalCom2 : FPath)
    (h0 : ¬ (fs.lookup env.asmPath).isNone)
    (h1 : (runTool env.asmRun.spawn).1 = 0)
    (h2 : normaliseCom (afterAsmState env fs) env.wd env.asmPath.dir
        env.base = Except.ok (fs2, finalCom))
    (h3 : ¬ (fs2.lookup finalCom).isNone)
    (h4 : (runTool env.pkgRun.spawn).1 = 0)
    (h5 : normaliseCom (stage2Input env fs2) env.wd env.asmPath.dir
        env.base = Except.ok (fs4, finalCom2)) :
    (buildThread env fs).1 =
      BuildOutcome.succeeded (comPath env) (dskPath env) := by
  rw [bt_success env fs h0 h1 h2 h3 h4 h5]
  have hc := (normalise_ok h5).1
  show BuildOutcome.succeeded finalCom2 (dskPath env) = _
  rw [hc]
  rfl

/-- Witness for C10: `benv10`'s packager exits 0 but writes nothing;
the build still reports success, and the reported disk image does not
exist in the final filesystem state. -/
theorem C10_witness :
    (buildThread benv10 bfs6).1 =
      BuildOutcome.succeeded (comPath benv10) (dskPath benv10) ∧
    (buildThread benv10 bfs6).2.2.lookup (dskPath benv10) = none :=
  ⟨C10_success_without_dsk_check benv10 bfs6 bfs10mid
      ⟨"W", "HELLO.COM"⟩ bfs10mid ⟨"W", "HELLO.COM"⟩ (by decide)
      (by decide) (by rfl) (by decide) (by decide) (by rfl),
   by decide⟩

end AsmToDsk
